import Mathlib

/-!
Verification of the genrepo generator core: a shallow embedding of
`src/genrepo/config.py`, `src/genrepo/constants.py` and
`src/genrepo/generator.py` (configuration validation and normalization,
model resolution, and the plan/execute write engine), together with
theorems settling the spec claims about them.

Modelling conventions:
- the file system is an association list keyed by path strings; a path is
  absent, readable with some content, or present but unreadable (reads
  raise),
- Jinja template rendering is abstracted as a function parameter from
  (template name, bound variables) to text; both the planner and the
  executor in the source call the same template with the same bindings,
- the snapshot of the model-discovery directory is passed as an explicit
  list of file names (the source reads it with a glob at resolve time),
- Python exceptions become `Except` values.
-/

/-- File state at one path: `read_text` on an `unreadable` file raises. -/
inductive FileState
  | absent
  | readable (content : String)
  | unreadable
deriving DecidableEq, Repr

/-- File system: association list from path to state, first match wins. -/
abbrev FS := List (String × FileState)

/-- Look up the state of a path (missing entries are absent files). -/
def FS.get : FS → String → FileState
  | [], _ => .absent
  | (q, st) :: rest, p => if q = p then st else FS.get rest p

/-- Record a new state for a path. -/
def FS.set (fs : FS) (p : String) (st : FileState) : FS := (p, st) :: fs

/-- Path concatenation, modelling `dir / name` on Path objects. -/
def pathJoin (dir name : String) : String := dir ++ "/" ++ name

-- ## constants.py

/-- CRUD base methods, from `constants.CRUD_METHODS`. -/
def CRUD_METHODS : List String :=
  ["get", "get_or_raise", "list", "find_one", "create", "update",
   "delete", "delete_by_id", "exists", "count"]

/-- Method sentinels, from `constants.METHOD_PRESETS`. -/
def METHOD_PRESETS : List String := ["all", "none"]

/-- Error text of `constants.ERR_INVALID_METHOD` after formatting. -/
def ERR_INVALID_METHOD (m : String) : String := "invalid method: " ++ m

/-- Error text of `constants.ERR_MODEL_NAME`. -/
def ERR_MODEL_NAME : String := "model name must start with a letter"

/-- Error text of `constants.ERR_IMPORT_PATH_CLASS`. -/
def ERR_IMPORT_PATH_CLASS : String := "import_path must include both module and class"

/-- Error text of `constants.ERR_DUPLICATE_MODELS`. -/
def ERR_DUPLICATE_MODELS : String := "duplicate model names in configuration"

-- ## config.py: the methods field

/-- The `CrudMethod` Literal union from config.py: the ten operations plus
the two sentinels.  Pydantic checks every element of the `methods` field
against this union before any field validator runs. -/
def CrudMethodLiterals : List String := CRUD_METHODS ++ METHOD_PRESETS

/-- A validation failure of one pydantic field: either the declared
Literal type rejected an element (pydantic reports the offending input),
or a field validator raised a ValueError with a message. -/
inductive FieldError
  | literal (token : String)
  | valueMsg (msg : String)
deriving DecidableEq, Repr

/-- The loop body of `ModelConfig.validate_methods`: walk the submitted
tokens, skip sentinels, reject tokens outside `CRUD_METHODS`, and append
first occurrences (the source's `seen` set always holds exactly the
members of `result`). -/
def methodsLoop (acc : List String) : List String → Except String (List String)
  | [] => .ok acc
  | m :: rest =>
    if m = "all" ∨ m = "none" then methodsLoop acc rest
    else if m ∉ CRUD_METHODS then .error (ERR_INVALID_METHOD m)
    else if m ∈ acc then methodsLoop acc rest
    else methodsLoop (acc ++ [m]) rest

/-- `ModelConfig.validate_methods`: normalize sentinels, deduplicate, and
insert the `get` prerequisite for `get_or_raise` / `delete_by_id`. -/
def validate_methods (v : List String) : Except String (List String) :=
  if v = [] then .ok []
  else if "none" ∈ v then .ok []
  else
    (methodsLoop (if "all" ∈ v then CRUD_METHODS else []) v).map fun result =>
      if ("get_or_raise" ∈ result ∨ "delete_by_id" ∈ result) ∧ "get" ∉ result
      then "get" :: result
      else result

/-- Pydantic's Literal check on the `methods` field: the first element
outside the `CrudMethod` union is reported as a literal error. -/
def literal_gate (v : List String) : Except FieldError (List String) :=
  match v.find? (fun m => decide (m ∉ CrudMethodLiterals)) with
  | some m => .error (.literal m)
  | none => .ok v

/-- Full validation pipeline of the `methods` field as pydantic runs it:
the declared Literal type first, then the `validate_methods` validator. -/
def validate_methods_field (v : List String) : Except FieldError (List String) :=
  match literal_gate v with
  | .error e => .error e
  | .ok v' => (validate_methods v').mapError FieldError.valueMsg

-- ## generator.py: classify and write

/-- `generator.FilePlan` (the `exists` field is `exists_` here because
`exists` is a Lean keyword). -/
structure FilePlan where
  path : String
  exists_ : Bool
  would_write : Bool
  overwrite : Bool
  reason : Option String
deriving DecidableEq, Repr

/-- `generator._classify_file`: decide create / skip / overwrite for one
target path given the proposed content and the overwrite permission. -/
def classify_file (fs : FS) (path content : String) (overwrite : Bool) : FilePlan :=
  match fs.get path with
  | .absent => ⟨path, false, true, overwrite, some "create"⟩
  | .unreadable =>
    if ¬ overwrite then ⟨path, true, false, false, some "exists-no-overwrite"⟩
    else ⟨path, true, true, true, some "overwrite"⟩
  | .readable current =>
    if ¬ overwrite then ⟨path, true, false, false, some "exists-no-overwrite"⟩
    else if current = content then ⟨path, true, false, true, some "up-to-date"⟩
    else ⟨path, true, true, true, some "overwrite"⟩

/-- The executor's `write` helper inside `generate_from_config`: skip when
the target exists and overwrite is off, otherwise write atomically
(temp file plus rename, whose net effect is setting the target). -/
def write (fs : FS) (path content : String) (overwrite : Bool) : Bool × FS :=
  if fs.get path ≠ .absent ∧ ¬ overwrite then (false, fs)
  else (true, fs.set path (.readable content))

-- ## String primitives (structural, so concrete runs reduce in the kernel)

/-- Split a character list at every occurrence of a separator, like
Python's `str.split` on a one-character separator. -/
def splitOnChar (sep : Char) : List Char → List (List Char)
  | [] => [[]]
  | c :: rest =>
    let r := splitOnChar sep rest
    if c = sep then [] :: r
    else
      match r with
      | [] => [[c]]
      | g :: gs => (c :: g) :: gs

/-- Join strings with a separator, like `sep.join(parts)`. -/
def joinSep (sep : String) : List String → String
  | [] => ""
  | [x] => x
  | x :: xs => x ++ sep ++ joinSep sep xs

/-- Python's `str.lower` (character-wise). -/
def pyLower (s : String) : String := String.mk (s.data.map Char.toLower)

/-- Python's `str.strip`: drop leading and trailing whitespace. -/
def pyStrip (s : String) : String :=
  String.mk (((s.data.dropWhile Char.isWhitespace).reverse.dropWhile
    Char.isWhitespace).reverse)

/-- Python's `name.startswith("__")`. -/
def startsWithDunder (s : String) : Bool :=
  match s.data with
  | '_' :: '_' :: _ => true
  | _ => false

/-- Lexicographic comparison of character lists by code point. -/
def lexLeChars : List Char → List Char → Bool
  | [], _ => true
  | _ :: _, [] => false
  | a :: as, b :: bs => if a < b then true else if b < a then false else lexLeChars as bs

/-- Lexicographic string order used by `sorted` on file names. -/
def strLe (a b : String) : Bool := lexLeChars a.data b.data

-- ## config.py: the other per-model validators and ModelConfig

/-- `ModelConfig.validate_name`: the name must be non-empty and start with
an alphabetic character. -/
def validate_name (v : String) : Except String String :=
  match v.data with
  | [] => .error ERR_MODEL_NAME
  | c :: _ => if c.isAlpha then .ok v else .error ERR_MODEL_NAME

/-- Python's `s.split(":", 1)` when `":" in s`: the text before the first
colon and everything after it; `none` when the string has no colon. -/
def splitOnceColon (s : String) : Option (String × String) :=
  match splitOnChar ':' s.data with
  | [] => none
  | [_] => none
  | a :: rest => some (String.mk a, joinSep ":" (rest.map String.mk))

/-- Total variant of `split(":", 1)` used where the source destructures
unconditionally; rendering-side only (the bound variables it feeds are
abstracted by the template function). -/
def splitColonTotal (s : String) : String × String :=
  match splitOnceColon s with
  | some p => p
  | none => (s, "")

/-- `ModelConfig.validate_import_path`: a value without a colon is
returned unchanged (the source comments this is for wildcard defaults but
does not check the entry kind); with a colon, both segments must be
non-empty. -/
def validate_import_path (v : String) : Except String String :=
  match splitOnceColon v with
  | none => .ok v
  | some (md, cls) =>
    if md = "" ∨ cls = "" then .error ERR_IMPORT_PATH_CLASS else .ok v

/-- The loop of `ModelConfig.validate_personalize_methods`: keep first
occurrences. -/
def pmLoop (acc : List String) : List String → List String
  | [] => acc
  | m :: rest => if m ∈ acc then pmLoop acc rest else pmLoop (acc ++ [m]) rest

/-- `ModelConfig.validate_personalize_methods`: deduplicate free-form
method names, preserving first occurrence. -/
def validate_personalize_methods (v : List String) : List String := pmLoop [] v

/-- `config.ModelConfig` after validation. -/
structure ModelConfig where
  name : String
  import_path : String
  id_field : String
  id_type : String
  methods : List String
  personalize_methods : List String
deriving DecidableEq, Repr

/-- Constructing a `ModelConfig` as pydantic does: per-field type checks
and validators, in field declaration order. -/
def mkModelConfig (name import_path id_field id_type : String)
    (methods personalize_methods : List String) : Except FieldError ModelConfig :=
  match validate_name name with
  | .error e => .error (.valueMsg e)
  | .ok n =>
    match validate_import_path import_path with
    | .error e => .error (.valueMsg e)
    | .ok ip =>
      match validate_methods_field methods with
      | .error e => .error e
      | .ok ms =>
        .ok ⟨n, ip, id_field, id_type, ms, validate_personalize_methods personalize_methods⟩

-- ## config.py: load_config and the models field

/-- A raw model declaration from the YAML document, before validation. -/
structure RawModel where
  name : String
  import_path : String
  id_field : String
  id_type : String
  methods : List String
  personalize_methods : List String
deriving DecidableEq, Repr

/-- Validate a raw declaration into a `ModelConfig`. -/
def validateRawModel (r : RawModel) : Except FieldError ModelConfig :=
  mkModelConfig r.name r.import_path r.id_field r.id_type r.methods r.personalize_methods

/-- Validate each declaration of the models list, failing on the first
pydantic field error. -/
def validateModelsList : List RawModel → Except FieldError (List ModelConfig)
  | [] => .ok []
  | r :: rest =>
    match validateRawModel r with
    | .error e => .error e
    | .ok m =>
      match validateModelsList rest with
      | .error e => .error e
      | .ok ms => .ok (m :: ms)

/-- `GenrepoConfig.validate_models`: reject duplicate model names. -/
def validate_models (ms : List ModelConfig) : Except String (List ModelConfig) :=
  if (ms.map ModelConfig.name).Nodup then .ok ms else .error ERR_DUPLICATE_MODELS

/-- Message text for a pydantic field error, as carried into the wrapped
invalid-configuration error. -/
def FieldError.msg : FieldError → String
  | .literal tok => "input should be a valid CrudMethod literal, got " ++ tok
  | .valueMsg m => m

/-- The distinct errors `load_config` can raise for the models field. -/
inductive LoadError
  | modelsMissing
  | modelsNone
  | modelsInvalidValue
  | modelsEmpty
  | invalidConfiguration (detail : String)
deriving DecidableEq, Repr

/-- Shape of the parsed `models` key of the YAML document: absent (or
null), a string, a list of declarations, or some other scalar whose
textual form is carried along. -/
inductive ModelsField
  | missing
  | strVal (s : String)
  | listVal (ms : List RawModel)
  | scalarVal (r : String)
deriving Repr

/-- The placeholder declaration injected for base-only configs without a
models key. -/
def placeholderModel : RawModel := ⟨"All", "app.models", "id", "int", ["none"], []⟩

/-- Pydantic validation of the models list inside
`GenrepoConfig.model_validate`, with the surrounding try/except of
`load_config` wrapping a `ValidationError` into the invalid-configuration
error. -/
def pydanticModels (ms : List RawModel) : Except LoadError (List ModelConfig) :=
  match validateModelsList ms with
  | .error e => .error (.invalidConfiguration e.msg)
  | .ok vs =>
    match validate_models vs with
    | .error e => .error (.invalidConfiguration e)
    | .ok vs' => .ok vs'

/-- The models-field handling of `load_config` (config.py lines 193-231):
returns the validated model list and the discover-all flag.  A value that
is neither a string nor a list falls through the isinstance checks into
`GenrepoConfig.model_validate`, where pydantic rejects it as not a list,
wrapped as invalid-configuration. -/
def load_models (gen_mode : String) (mf : ModelsField) :
    Except LoadError (List ModelConfig × Bool) :=
  match mf with
  | .missing =>
    if gen_mode ≠ "base" then .error .modelsMissing
    else
      match pydanticModels [placeholderModel] with
      | .error e => .error e
      | .ok ms => .ok (ms, false)
  | .strVal s =>
    let mval := pyLower (pyStrip s)
    if mval = "all" then
      match pydanticModels [] with
      | .error e => .error e
      | .ok ms => .ok (ms, true)
    else if mval = "none" then .error .modelsNone
    else .error .modelsInvalidValue
  | .listVal ms =>
    if ms.length = 0 then .error .modelsEmpty
    else
      match pydanticModels ms with
      | .error e => .error e
      | .ok vs => .ok (vs, false)
  | .scalarVal _ => .error (.invalidConfiguration "models value is not a list")

-- ## config.py: GenrepoConfig

/-- The `OrmType` Literal union. -/
inductive OrmType
  | sqlmodel
  | sqlalchemy
deriving DecidableEq, Repr

/-- The `GenerationMode` Literal union. -/
inductive GenerationMode
  | standalone
  | base
  | combined
deriving DecidableEq, Repr

/-- `GenrepoConfig.Generation`. -/
structure Generation where
  mode : GenerationMode
  base_filename : String
  base_class_name : String
  overwrite_base : Bool
  stub_only : Bool
deriving DecidableEq, Repr

/-- `config.GenrepoConfig` after validation (commit_strategy kept as the
string handed to templates). -/
structure GenrepoConfig where
  orm : OrmType
  async_mode : Bool
  output_dir : String
  models : List ModelConfig
  models_dir : Option String
  models_package : Option String
  discover_all : Bool
  commit_strategy : String
  allow_missing_models : Bool
  generation : Generation
deriving DecidableEq, Repr

-- ## generator.py: name transforms

/-- Character walk of `generator.to_snake`: insert an underscore before
each interior uppercase letter, lowercasing everything. -/
def snakeChars : List Char → Bool → List Char
  | [], _ => []
  | c :: rest, first =>
    if c.isUpper ∧ ¬ first then '_' :: c.toLower :: snakeChars rest false
    else c.toLower :: snakeChars rest false

/-- `generator.to_snake`. -/
def to_snake (name : String) : String := String.mk (snakeChars name.data true)

/-- Python's `str.capitalize`: uppercase the first character, lowercase
the rest. -/
def capitalize (s : String) : String :=
  match s.data with
  | [] => ""
  | c :: rest => String.mk (c.toUpper :: rest.map Char.toLower)

/-- `generator.to_pascal`: split on underscores (hyphens first replaced by
underscores), capitalize the non-empty parts and concatenate. -/
def to_pascal (snake : String) : String :=
  String.join ((((splitOnChar '_'
    (snake.data.map fun c => if c = '-' then '_' else c)).map String.mk).filter
      (fun p => p ≠ "")).map capitalize)

/-- `Path.stem` of a discovered source file name: the name without its
final dot suffix. -/
def stemOf (fileName : String) : String :=
  let parts := (splitOnChar '.' fileName.data).map String.mk
  if parts.length ≤ 1 then fileName
  else joinSep "." parts.dropLast

/-- `base_filename.rsplit(".", 1)[0]`: the base module name. -/
def base_module_of (base_filename : String) : String :=
  let parts := (splitOnChar '.' base_filename.data).map String.mk
  if parts.length ≤ 1 then base_filename
  else joinSep "." parts.dropLast

-- ## generator.py: template selection and rendering

/-- Template file names from constants.py. -/
def TPL_BASE_SQLMODEL_SYNC : String := "base_repository_sqlmodel_sync.j2"

/-- Template name constant. -/
def TPL_BASE_SQLMODEL_ASYNC : String := "base_repository_sqlmodel_async.j2"

/-- Template name constant. -/
def TPL_BASE_SQLALCHEMY_SYNC : String := "base_repository_sqlalchemy_sync.j2"

/-- Template name constant. -/
def TPL_BASE_SQLALCHEMY_ASYNC : String := "base_repository_sqlalchemy_async.j2"

/-- Template name constant. -/
def TPL_STANDALONE_SQLMODEL : String := "repository_sqlmodel.j2"

/-- Template name constant. -/
def TPL_STANDALONE_SQLALCHEMY : String := "repository_sqlalchemy.j2"

/-- Template name constant. -/
def TPL_USER_STUB : String := "model_repository_user_stub.j2"

/-- Template name constant. -/
def TPL_BASE_STUB : String := "repository_base_stub.j2"

/-- Template name constant. -/
def TPL_STANDALONE_STUB : String := "repository_standalone_stub.j2"

/-- `TemplateSelector.standalone_template` (the unsupported-orm branch is
unreachable for a validated config, whose orm is Literal-typed). -/
def standalone_template (cfg : GenrepoConfig) : String :=
  if cfg.generation.stub_only then TPL_STANDALONE_STUB
  else
    match cfg.orm with
    | .sqlmodel => TPL_STANDALONE_SQLMODEL
    | .sqlalchemy => TPL_STANDALONE_SQLALCHEMY

/-- `TemplateSelector.base_template`. -/
def base_template (cfg : GenrepoConfig) : String :=
  if cfg.generation.stub_only then TPL_BASE_STUB
  else
    match cfg.orm, cfg.async_mode with
    | .sqlmodel, true => TPL_BASE_SQLMODEL_ASYNC
    | .sqlmodel, false => TPL_BASE_SQLMODEL_SYNC
    | .sqlalchemy, true => TPL_BASE_SQLALCHEMY_ASYNC
    | .sqlalchemy, false => TPL_BASE_SQLALCHEMY_SYNC

/-- Jinja environment abstraction: a pure function from a template name
and its bound variables to rendered text.  Planner and executor construct
the same environment from the same templates directory, so one function
stands for both. -/
structure Jinja where
  render : String → List (String × String) → String

/-- String form of a boolean binding. -/
def boolStr (b : Bool) : String := if b then "True" else "False"

/-- String form of a list binding. -/
def listStr (xs : List String) : String := joinSep "," xs

/-- String form of the orm binding. -/
def ormStr : OrmType → String
  | .sqlmodel => "sqlmodel"
  | .sqlalchemy => "sqlalchemy"

/-- Methods reordered into canonical vocabulary order inside
`generator._render_repo`. -/
def orderedMethods (m : ModelConfig) : List String :=
  CRUD_METHODS.filter (fun x => x ∈ m.methods)

/-- Variables bound when rendering the base repository template. -/
def baseRenderArgs (cfg : GenrepoConfig) : List (String × String) :=
  [("base_class_name", cfg.generation.base_class_name),
   ("commit_strategy", cfg.commit_strategy)]

/-- Variables bound by `generator._render_repo` for a standalone file. -/
def repoRenderArgs (cfg : GenrepoConfig) (model : ModelConfig) : List (String × String) :=
  let mc := splitColonTotal model.import_path
  [("model_name", model.name), ("model_module", mc.1), ("model_class", mc.2),
   ("id_field", model.id_field), ("id_type", model.id_type),
   ("methods", listStr (orderedMethods model)),
   ("personalize_methods", listStr model.personalize_methods),
   ("commit_strategy", cfg.commit_strategy),
   ("is_async", boolStr cfg.async_mode)]

/-- Variables bound when rendering a combined-mode user stub. -/
def stubRenderArgs (cfg : GenrepoConfig) (model : ModelConfig) : List (String × String) :=
  let mc := splitColonTotal model.import_path
  [("model_name", model.name), ("model_module", mc.1), ("model_class", mc.2),
   ("base_module", base_module_of cfg.generation.base_filename),
   ("base_class_name", cfg.generation.base_class_name),
   ("id_field", model.id_field), ("id_type", model.id_type),
   ("personalize_methods", listStr model.personalize_methods),
   ("orm", ormStr cfg.orm), ("is_async", boolStr cfg.async_mode)]

/-- Rendered base repository content, identical in planner and executor. -/
def baseContent (env : Jinja) (cfg : GenrepoConfig) : String :=
  env.render (base_template cfg) (baseRenderArgs cfg)

/-- Rendered standalone repository content for one model. -/
def standaloneContent (env : Jinja) (cfg : GenrepoConfig) (model : ModelConfig) : String :=
  env.render (standalone_template cfg) (repoRenderArgs cfg model)

/-- Rendered combined-mode user stub content for one model. -/
def stubContent (env : Jinja) (cfg : GenrepoConfig) (model : ModelConfig) : String :=
  env.render TPL_USER_STUB (stubRenderArgs cfg model)

-- ## generator.py: model resolution

/-- A model entry whose name marks it as the wildcard/discovery entry. -/
def isWildcardName (m : ModelConfig) : Bool :=
  pyLower m.name == "all" || pyLower m.name == "*"

/-- Python's `a or b` for an optional string: empty or missing falls back. -/
def pyOr (o : Option String) (d : String) : String :=
  match o with
  | some s => if s = "" then d else s
  | none => d

/-- Insert into an already sorted list, keeping order. -/
def insertSorted (x : String) : List String → List String
  | [] => [x]
  | y :: ys => if strLe x y then x :: y :: ys else y :: insertSorted x ys

/-- Lexicographic sort of the discovery directory listing, modelling
`sorted(base_dir.glob(...))` within one directory. -/
def sortLex (xs : List String) : List String := xs.foldr insertSorted []

/-- Errors raised by `ModelResolver.resolve`. -/
inductive ResolveError
  | notImportable (import_path : String)
  | modelInvalid (e : FieldError)
deriving DecidableEq, Repr

/-- The explicit-model import sanity check of `ModelResolver.resolve`: the
locator is split at the colon (an unsplittable locator raises, caught and
re-raised as not-importable) and looked up through the import oracle. -/
def checkImports (importable : String → String → Bool) :
    List ModelConfig → Except ResolveError Unit
  | [] => .ok ()
  | m :: rest =>
    match splitOnceColon m.import_path with
    | none => .error (.notImportable m.import_path)
    | some (md, cls) =>
      if importable md cls then checkImports importable rest
      else .error (.notImportable m.import_path)

/-- The discovery loop of `ModelResolver.resolve`: walk the sorted
listing, skip reserved double-underscore names and names whose derived
class an explicit declaration already claims, and synthesize (and
pydantic-validate) a declaration for the rest. -/
def discoverLoop (pkg dId dType : String) (dMethods dPers : List String)
    (explicitNames : List String) : List String → Except FieldError (List ModelConfig)
  | [] => .ok []
  | f :: rest =>
    if startsWithDunder f then
      discoverLoop pkg dId dType dMethods dPers explicitNames rest
    else
      let cls := to_pascal (stemOf f)
      if cls ∈ explicitNames then
        discoverLoop pkg dId dType dMethods dPers explicitNames rest
      else
        match mkModelConfig cls (pkg ++ "." ++ stemOf f ++ ":" ++ cls) dId dType
            dMethods dPers with
        | .error e => .error e
        | .ok m =>
          match discoverLoop pkg dId dType dMethods dPers explicitNames rest with
          | .error e => .error e
          | .ok ms => .ok (m :: ms)

/-- `ModelResolver.resolve`: separate the wildcard entry (last wins, all
removed) from explicit declarations; with discovery enabled, append
discovered models in lexicographic file order using the wildcard entry as
defaults; otherwise optionally run the import check.  The directory
listing snapshot is a parameter. -/
def resolve (cfg : GenrepoConfig) (listing : List String)
    (importable : String → String → Bool) : Except ResolveError (List ModelConfig) :=
  let explicitModels := cfg.models.filter (fun m => !isWildcardName m)
  let wildcard := (cfg.models.filter isWildcardName).getLast?
  if cfg.discover_all || wildcard.isSome then
    let pkg := pyOr cfg.models_package
      (match wildcard with
       | some w =>
         if (splitOnceColon w.import_path).isSome then "app.models" else w.import_path
       | none => "app.models")
    let dId := match wildcard with | some w => w.id_field | none => "id"
    let dType := match wildcard with | some w => w.id_type | none => "int"
    let dMethods := match wildcard with | some w => w.methods | none => ["all"]
    let dPers := match wildcard with | some w => w.personalize_methods | none => []
    match discoverLoop pkg dId dType dMethods dPers
        (explicitModels.map ModelConfig.name) (sortLex listing) with
    | .error e => .error (.modelInvalid e)
    | .ok ds => .ok (explicitModels ++ ds)
  else if !cfg.allow_missing_models then
    match checkImports importable explicitModels with
    | .error e => .error e
    | .ok _ => .ok explicitModels
  else .ok explicitModels

-- ## generator.py: the discovery directory glob over the file system

/-- Remove a leading exact character sequence, or fail. -/
def dropLeading : List Char → List Char → Option (List Char)
  | [], rest => some rest
  | _ :: _, [] => none
  | a :: as, b :: bs => if a = b then dropLeading as bs else none

/-- The file name under which a path matches `dir.glob("*.py")`
non-recursively: the path must extend `dir ++ "/"` by a slash-free name
ending in `.py`. -/
def pyChildName (dir p : String) : Option String :=
  match dropLeading (dir ++ "/").data p.data with
  | none => none
  | some rest =>
    if rest.contains '/' then none
    else
      match rest.reverse with
      | 'y' :: 'p' :: '.' :: _ => some (String.mk rest)
      | _ => none

/-- `base_dir.glob("*.py")` against the modelled file system: the names
of the `.py` files directly inside `dir` that currently exist.  The
resolver sorts this listing itself. -/
def FS.glob (fs : FS) (dir : String) : List String :=
  (pmLoop [] ((fs.map (fun e => e.1)).filterMap (pyChildName dir))).filter
    (fun f => FS.get fs (pathJoin dir f) ≠ .absent)

/-- `cfg.models_dir or (project_root / "app/models")`: a Path value is
always truthy, so only a missing value falls back. -/
def modelsDirOf (project_root : String) (cfg : GenrepoConfig) : String :=
  match cfg.models_dir with
  | some d => d
  | none => pathJoin project_root "app/models"

-- ## generator.py: execution and planning

/-- `ensure_package` inside `generate_from_config`: create the package
marker file once (the directory creation itself is not observable in this
model). -/
def ensure_package (fs : FS) (dir : String) : FS :=
  match fs.get (pathJoin dir "__init__.py") with
  | .absent => fs.set (pathJoin dir "__init__.py") (.readable "")
  | _ => fs

/-- Run the executor's write over a list of (path, content, overwrite)
targets, accumulating the written paths in order. -/
def writeAll : FS → List (String × String × Bool) → List String × FS
  | fs, [] => ([], fs)
  | fs, (p, c, ow) :: rest =>
    let r := write fs p c ow
    let rest' := writeAll r.2 rest
    ((if r.1 then [p] else []) ++ rest'.1, rest'.2)

/-- The resolved output directory `(project_root / cfg.output_dir)`. -/
def outDirOf (project_root : String) (cfg : GenrepoConfig) : String :=
  pathJoin project_root cfg.output_dir

/-- Output file name of a per-model repository file. -/
def repoFileName (m : ModelConfig) : String := to_snake m.name ++ "_repository.py"

/-- Full path of the base repository file. -/
def basePathOf (project_root : String) (cfg : GenrepoConfig) : String :=
  pathJoin (outDirOf project_root cfg) cfg.generation.base_filename

/-- `generator.generate_from_config`: ensure the package marker, then per
mode write the base file and/or the per-model files, returning the
written paths in order and the resulting file system.  Model resolution
happens where the source performs it: after the package marker is
ensured, and in combined mode after the base-file write, so the
discovery glob sees those writes. -/
def generate_from_config (env : Jinja) (cfg : GenrepoConfig) (project_root : String)
    (force : Bool) (fs : FS) (importable : String → String → Bool) :
    Except ResolveError (List String × FS) :=
  let out_dir := outDirOf project_root cfg
  let fs0 := ensure_package fs out_dir
  match cfg.generation.mode with
  | .base =>
    .ok (writeAll fs0
      [(basePathOf project_root cfg, baseContent env cfg, cfg.generation.overwrite_base)])
  | .standalone =>
    match resolve cfg (FS.glob fs0 (modelsDirOf project_root cfg)) importable with
    | .error e => .error e
    | .ok models =>
      .ok (writeAll fs0 (models.map fun m =>
        (pathJoin out_dir (repoFileName m), standaloneContent env cfg m, force)))
  | .combined =>
    let r := write fs0 (basePathOf project_root cfg) (baseContent env cfg)
      cfg.generation.overwrite_base
    match resolve cfg (FS.glob r.2 (modelsDirOf project_root cfg)) importable with
    | .error e => .error e
    | .ok models =>
      let rest := writeAll r.2 (models.map fun m =>
        (pathJoin out_dir (repoFileName m), stubContent env cfg m, false))
      .ok ((if r.1 then [basePathOf project_root cfg] else []) ++ rest.1, rest.2)

/-- `generator.plan_from_config`: same file list and contents as the
executor, but every target is classified against the starting file
system, whose discovery directory is also what the resolver's glob
sees (the planner performs no writes). -/
def plan_from_config (env : Jinja) (cfg : GenrepoConfig) (project_root : String)
    (force : Bool) (fs : FS) (importable : String → String → Bool) :
    Except ResolveError (List FilePlan) :=
  let out_dir := outDirOf project_root cfg
  match cfg.generation.mode with
  | .base =>
    .ok [classify_file fs (basePathOf project_root cfg) (baseContent env cfg)
      cfg.generation.overwrite_base]
  | .standalone =>
    match resolve cfg (FS.glob fs (modelsDirOf project_root cfg)) importable with
    | .error e => .error e
    | .ok models =>
      .ok (models.map fun m =>
        classify_file fs (pathJoin out_dir (repoFileName m)) (standaloneContent env cfg m)
          force)
  | .combined =>
    match resolve cfg (FS.glob fs (modelsDirOf project_root cfg)) importable with
    | .error e => .error e
    | .ok models =>
      .ok (classify_file fs (basePathOf project_root cfg) (baseContent env cfg)
          cfg.generation.overwrite_base
        :: models.map fun m =>
          classify_file fs (pathJoin out_dir (repoFileName m)) (stubContent env cfg m)
            false)

/-- A plan entry the executor would report as written: planned writes,
plus the up-to-date entries that `write` rewrites anyway because it never
compares content. -/
def shouldWriteFlag (f : FilePlan) : Bool :=
  f.would_write || decide (f.reason = some "up-to-date")

-- ## Concrete fixtures used by witnesses and counterexamples

/-- A rendering environment returning fixed text for every template. -/
def jinjaGEN : Jinja := ⟨fun _ _ => "GEN"⟩

/-- An import oracle accepting every module and attribute. -/
def impAll : String → String → Bool := fun _ _ => true

/-- A raw explicit model declaration. -/
def userRawModel : RawModel :=
  ⟨"User", "app.models.user:User", "id", "int", ["get"], []⟩

/-- The validated form of `userRawModel`. -/
def userModelConfig : ModelConfig :=
  ⟨"User", "app.models.user:User", "id", "int", ["get"], []⟩

/-- An explicit declaration whose import locator has no colon. -/
def userNoColonModel : ModelConfig :=
  ⟨"User", "app.models", "id", "int", ["get"], []⟩

/-- A validated wildcard entry (methods already normalized from [none]). -/
def wildcardAllModel : ModelConfig := ⟨"All", "app.models", "id", "int", [], []⟩

/-- Base-only config with overwrite_base on. -/
def cfgBaseUpToDate : GenrepoConfig :=
  ⟨.sqlmodel, false, "out", [], none, none, false, "none", true,
   ⟨.base, "base_repository.py", "BaseRepository", true, false⟩⟩

/-- Starting state for the parity counterexample: the base file already
holds exactly the rendered content. -/
def fsBaseUpToDate : FS := [("/r/out/base_repository.py", .readable "GEN")]

/-- Standalone config with one explicit model. -/
def cfgStandaloneOne : GenrepoConfig :=
  ⟨.sqlmodel, false, "out", [userModelConfig], none, none, false, "none", true,
   ⟨.standalone, "base_repository.py", "BaseRepository", false, false⟩⟩

/-- Combined-mode config whose base file name collides with the model's
stub file name. -/
def cfgCombinedClash : GenrepoConfig :=
  ⟨.sqlmodel, false, "out", [userModelConfig], none, none, false, "none", true,
   ⟨.combined, "user_repository.py", "BaseRepository", true, false⟩⟩

/-- Starting state for the create-once counterexample: the stub file
exists with manual edits. -/
def fsClash : FS := [("/r/out/user_repository.py", .readable "MANUAL")]

/-- Combined-mode config without the collision. -/
def cfgCombinedOk : GenrepoConfig :=
  ⟨.sqlmodel, false, "out", [userModelConfig], none, none, false, "none", true,
   ⟨.combined, "base_repository.py", "BaseRepository", true, false⟩⟩

/-- Starting state for the create-once witness: stub and base both exist. -/
def fsCombinedOk : FS :=
  [("/r/out/user_repository.py", .readable "MANUAL"),
   ("/r/out/base_repository.py", .readable "OLD")]

/-- The file system after regenerating `cfgCombinedOk` over
`fsCombinedOk`: the package marker was created, the base file was
rewritten (newest entry wins), the stub kept its manual content. -/
def fsC3After : FS :=
  [("/r/out/base_repository.py", .readable "GEN"),
   ("/r/out/__init__.py", .readable ""),
   ("/r/out/user_repository.py", .readable "MANUAL"),
   ("/r/out/base_repository.py", .readable "OLD")]

/-- Standalone config with an explicit model whose locator has no colon
and the import check enabled. -/
def cfgNoColonChecked : GenrepoConfig :=
  ⟨.sqlmodel, false, "out", [userNoColonModel], none, none, false, "none", false,
   ⟨.standalone, "base_repository.py", "BaseRepository", false, false⟩⟩

/-- The model the resolver synthesizes for a discovered file bar.py under
the wildcard defaults of `wildcardAllModel`. -/
def barModelConfig : ModelConfig := ⟨"Bar", "app.models.bar:Bar", "id", "int", [], []⟩

/-- Discovery config: one explicit model plus a wildcard entry. -/
def cfgDiscovery : GenrepoConfig :=
  ⟨.sqlmodel, false, "out", [userModelConfig, wildcardAllModel], none, none, false,
   "none", true,
   ⟨.standalone, "base_repository.py", "BaseRepository", false, false⟩⟩

-- ## Theorems for claims about classify and methods normalization

/-- C2: `_classify_file` implements the five-row decision table of the
spec: a missing path is written with reason create for any flag; an
existing path with overwrite off is skipped with reason
exists-no-overwrite; an existing unreadable path with overwrite on is
written with reason overwrite; an existing path whose content differs is
written with reason overwrite; an existing identical path is skipped with
reason up-to-date. -/
theorem classify_file_matches_spec_table (fs : FS) (p c : String) (ow : Bool) :
    (fs.get p = .absent →
      classify_file fs p c ow = ⟨p, false, true, ow, some "create"⟩)
    ∧ (fs.get p ≠ .absent → ow = false →
      classify_file fs p c ow = ⟨p, true, false, false, some "exists-no-overwrite"⟩)
    ∧ (fs.get p = .unreadable →
      classify_file fs p c true = ⟨p, true, true, true, some "overwrite"⟩)
    ∧ (∀ cur, fs.get p = .readable cur → cur ≠ c →
      classify_file fs p c true = ⟨p, true, true, true, some "overwrite"⟩)
    ∧ (fs.get p = .readable c →
      classify_file fs p c true = ⟨p, true, false, true, some "up-to-date"⟩) := by
  refine ⟨?_, ?_, ?_, ?_, ?_⟩
  · intro h; simp [classify_file, h]
  · intro h how
    subst how
    rcases hget : fs.get p with _ | cur | _ <;> simp [hget] at h ⊢ <;>
      simp [classify_file, hget]
  · intro h; simp [classify_file, h]
  · intro cur h hne; simp [classify_file, h, hne]
  · intro h; simp [classify_file, h]

/-- Witness for C2 at concrete inputs: an absent path is planned as a
create, and an identical readable path with overwrite on is up-to-date. -/
theorem classify_file_matches_spec_table_witness :
    classify_file [] "a/f.py" "text" true = ⟨"a/f.py", false, true, true, some "create"⟩
    ∧ classify_file [("a/f.py", .readable "text")] "a/f.py" "text" true
      = ⟨"a/f.py", true, false, true, some "up-to-date"⟩ :=
  ⟨(classify_file_matches_spec_table [] "a/f.py" "text" true).1 (by decide),
   (classify_file_matches_spec_table [("a/f.py", .readable "text")] "a/f.py" "text" true).2.2.2.2
     (by decide)⟩

/-- C4: the methods field value `[all]` normalizes to exactly the fixed
ten-operation vocabulary and `[none]` normalizes to the empty list. -/
theorem methods_all_none_normalization :
    validate_methods_field ["all"] = .ok CRUD_METHODS
    ∧ validate_methods_field ["none"] = .ok []
    ∧ CRUD_METHODS = ["get", "get_or_raise", "list", "find_one", "create",
        "update", "delete", "delete_by_id", "exists", "count"] := by
  refine ⟨?_, ?_, rfl⟩ <;> rfl

/-- C10: the none sentinel dominates: whenever the submitted methods list
contains the token none and the field pipeline accepts the list, the
normalized operation list is empty. -/
theorem none_sentinel_dominates (v r : List String)
    (hmem : "none" ∈ v) (hok : validate_methods_field v = .ok r) : r = [] := by
  unfold validate_methods_field at hok
  rcases hgate : literal_gate v with e | v'
  · rw [hgate] at hok; simp at hok
  · rw [hgate] at hok
    have hv : v' = v := by
      unfold literal_gate at hgate
      rcases h : v.find? (fun m => decide (m ∉ CrudMethodLiterals)) with _ | m <;>
        rw [h] at hgate <;> simp at hgate
      exact hgate.symm
    rw [hv] at hok
    unfold validate_methods at hok
    have hne : v ≠ [] := by rintro rfl; cases hmem
    simp [hne, hmem, Except.mapError] at hok
    exact hok

/-- Witness for C10: a mixed list holding all, none and get normalizes to
the empty operation list. -/
theorem none_sentinel_dominates_witness :
    "none" ∈ ["all", "none", "get"]
    ∧ validate_methods_field ["all", "none", "get"] = .ok []
    ∧ ([] : List String) = [] :=
  ⟨by decide, by rfl,
   none_sentinel_dominates ["all", "none", "get"] [] (by decide) (by rfl)⟩

-- ## Helper lemmas about the methods loop

/-- Helper: a successful methods loop extends its accumulator with a
sublist of the non-sentinel input tokens (so dedup keeps first
occurrences in their input-relative order). -/
theorem methodsLoop_decomp (v : List String) :
    ∀ (acc r : List String), methodsLoop acc v = .ok r →
    ∃ t, r = acc ++ t
      ∧ t.Sublist (v.filter (fun m => decide (m ≠ "all" ∧ m ≠ "none"))) := by
  induction v with
  | nil =>
    intro acc r h
    simp only [methodsLoop, Except.ok.injEq] at h
    exact ⟨[], by simp [← h], by simp⟩
  | cons m rest ih =>
    intro acc r h
    unfold methodsLoop at h
    by_cases hs : m = "all" ∨ m = "none"
    · rw [if_pos hs] at h
      obtain ⟨t, ht, hsub⟩ := ih acc r h
      refine ⟨t, ht, ?_⟩
      have hfil : (m :: rest).filter (fun m => decide (m ≠ "all" ∧ m ≠ "none"))
          = rest.filter (fun m => decide (m ≠ "all" ∧ m ≠ "none")) := by
        rcases hs with h1 | h1 <;> simp [List.filter_cons, h1]
      rw [hfil]; exact hsub
    · rw [if_neg hs] at h
      have hm := not_or.mp hs
      have hfil : (m :: rest).filter (fun m => decide (m ≠ "all" ∧ m ≠ "none"))
          = m :: rest.filter (fun m => decide (m ≠ "all" ∧ m ≠ "none")) := by
        simp [List.filter_cons, hm.1, hm.2]
      by_cases hc : m ∈ CRUD_METHODS
      · rw [if_neg (not_not_intro hc)] at h
        by_cases ha : m ∈ acc
        · rw [if_pos ha] at h
          obtain ⟨t, ht, hsub⟩ := ih acc r h
          exact ⟨t, ht, by rw [hfil]; exact hsub.cons m⟩
        · rw [if_neg ha] at h
          obtain ⟨t, ht, hsub⟩ := ih (acc ++ [m]) r h
          exact ⟨m :: t, by simp [ht], by rw [hfil]; exact hsub.cons₂ m⟩
      · rw [if_pos hc] at h
        exact absurd h (by simp)

/-- Helper: the methods loop preserves freedom from duplicates. -/
theorem methodsLoop_nodup (v : List String) :
    ∀ (acc r : List String), methodsLoop acc v = .ok r → acc.Nodup → r.Nodup := by
  induction v with
  | nil =>
    intro acc r h hacc
    simp only [methodsLoop, Except.ok.injEq] at h
    rwa [← h]
  | cons m rest ih =>
    intro acc r h hacc
    unfold methodsLoop at h
    by_cases hs : m = "all" ∨ m = "none"
    · rw [if_pos hs] at h; exact ih acc r h hacc
    · rw [if_neg hs] at h
      by_cases hc : m ∈ CRUD_METHODS
      · rw [if_neg (not_not_intro hc)] at h
        by_cases ha : m ∈ acc
        · rw [if_pos ha] at h; exact ih acc r h hacc
        · rw [if_neg ha] at h
          exact ih (acc ++ [m]) r h (by simp [List.nodup_append, hacc, ha])
      · rw [if_pos hc] at h
        exact absurd h (by simp)

/-- Helper: the methods loop cannot fail when every submitted token is in
the CrudMethod Literal union. -/
theorem methodsLoop_total (v : List String) :
    ∀ acc : List String, (∀ m ∈ v, m ∈ CrudMethodLiterals) →
    ∃ r, methodsLoop acc v = .ok r := by
  induction v with
  | nil => intro acc _; exact ⟨acc, rfl⟩
  | cons m rest ih =>
    intro acc h
    have hm := h m (by simp)
    have hrest : ∀ x ∈ rest, x ∈ CrudMethodLiterals := fun x hx => h x (by simp [hx])
    by_cases hs : m = "all" ∨ m = "none"
    · obtain ⟨r, hr⟩ := ih acc hrest
      exact ⟨r, by unfold methodsLoop; rw [if_pos hs]; exact hr⟩
    · have hc : m ∈ CRUD_METHODS := by
        have := not_or.mp hs
        simp [CrudMethodLiterals, METHOD_PRESETS] at hm
        rcases hm with h1 | h1 | h1
        · exact h1
        · exact absurd h1 this.1
        · exact absurd h1 this.2
      by_cases ha : m ∈ acc
      · obtain ⟨r, hr⟩ := ih acc hrest
        refine ⟨r, ?_⟩
        unfold methodsLoop
        rw [if_neg hs, if_neg (not_not_intro hc), if_pos ha]
        exact hr
      · obtain ⟨r, hr⟩ := ih (acc ++ [m]) hrest
        refine ⟨r, ?_⟩
        unfold methodsLoop
        rw [if_neg hs, if_neg (not_not_intro hc), if_neg ha]
        exact hr

/-- C5: when the sentinel-expanded, deduplicated token list contains
get_or_raise or delete_by_id but not get, the validator prepends get (so
it precedes the dependent operations), keeps the other operations in
their input-relative order, and produces no duplicates. -/
theorem get_prerequisite_insertion (v pre : List String)
    (hne : v ≠ []) (hnone : "none" ∉ v)
    (hloop : methodsLoop (if "all" ∈ v then CRUD_METHODS else []) v = .ok pre)
    (hdep : "get_or_raise" ∈ pre ∨ "delete_by_id" ∈ pre)
    (hget : "get" ∉ pre) :
    validate_methods v = .ok ("get" :: pre)
    ∧ ("get" :: pre).Nodup
    ∧ pre.Sublist (v.filter (fun m => decide (m ≠ "all" ∧ m ≠ "none"))) := by
  have hpre_nodup : pre.Nodup := by
    by_cases hall : "all" ∈ v
    · rw [if_pos hall] at hloop
      exact methodsLoop_nodup v CRUD_METHODS pre hloop (by decide)
    · rw [if_neg hall] at hloop
      exact methodsLoop_nodup v [] pre hloop (by simp)
  have hall : "all" ∉ v := by
    intro hall
    rw [if_pos hall] at hloop
    obtain ⟨t, ht, _⟩ := methodsLoop_decomp v CRUD_METHODS pre hloop
    exact hget (by simp [ht, CRUD_METHODS])
  have hsub : pre.Sublist (v.filter (fun m => decide (m ≠ "all" ∧ m ≠ "none"))) := by
    rw [if_neg hall] at hloop
    obtain ⟨t, ht, hs⟩ := methodsLoop_decomp v [] pre hloop
    simpa [ht] using hs
  refine ⟨?_, by simp [hget, hpre_nodup], hsub⟩
  unfold validate_methods
  rw [if_neg hne, if_neg hnone, if_neg hall] at *
  rw [hloop]
  simp [Except.map, hdep, hget]

/-- Witness for C5: delete_by_id without get gets get prepended. -/
theorem get_prerequisite_insertion_witness :
    validate_methods ["delete_by_id", "list"] = .ok ["get", "delete_by_id", "list"]
    ∧ (["get", "delete_by_id", "list"] : List String).Nodup
    ∧ (["delete_by_id", "list"] : List String).Sublist
        ((["delete_by_id", "list"] : List String).filter
          (fun m => decide (m ≠ "all" ∧ m ≠ "none"))) :=
  get_prerequisite_insertion ["delete_by_id", "list"] ["delete_by_id", "list"]
    (by decide) (by decide) (by rfl) (by decide) (by decide)

-- ## Theorems for C6: invalid operation tokens

/-- C6 counterexample: a model declaration with the unknown operation
token bogus fails the methods-field validation through the declared
Literal union (pydantic literal error naming the token), not through the
validator's invalid-method ValueError, so the error message is not
"invalid method: bogus". -/
theorem invalid_method_error_counterexample :
    validate_methods_field ["bogus"] = .error (.literal "bogus")
    ∧ validate_methods_field ["bogus"]
      ≠ .error (.valueMsg (ERR_INVALID_METHOD "bogus")) := by
  constructor
  · rfl
  · intro h
    rw [show validate_methods_field ["bogus"] = .error (.literal "bogus") from rfl] at h
    simp at h

/-- C6 amended: a methods list holding a token outside the fixed
vocabulary and the sentinels is rejected, but by the Literal union of the
field type, with a literal error naming an offending token; the
validator's own invalid-method branch is unreachable because
`validate_methods` always succeeds on input that passed the Literal
gate. -/
theorem invalid_method_token_amended (v : List String) (tok : String)
    (hmem : tok ∈ v) (hout : tok ∉ CrudMethodLiterals) :
    (∃ t, validate_methods_field v = .error (.literal t)
      ∧ t ∈ v ∧ t ∉ CrudMethodLiterals)
    ∧ ∀ w : List String, (∀ m ∈ w, m ∈ CrudMethodLiterals) →
        ∃ r, validate_methods w = .ok r := by
  constructor
  · have hsome : (v.find? (fun m => decide (m ∉ CrudMethodLiterals))).isSome := by
      rw [List.find?_isSome]
      exact ⟨tok, hmem, by simp [hout]⟩
    obtain ⟨t, ht⟩ := Option.isSome_iff_exists.mp hsome
    refine ⟨t, ?_, List.mem_of_find?_eq_some ht, ?_⟩
    · unfold validate_methods_field literal_gate
      rw [ht]
    · have := List.find?_some ht
      simpa using this
  · intro w hw
    by_cases hwe : w = []
    · exact ⟨[], by simp [validate_methods, hwe]⟩
    by_cases hn : "none" ∈ w
    · refine ⟨[], ?_⟩
      unfold validate_methods
      rw [if_neg hwe, if_pos hn]
    obtain ⟨r, hr⟩ := methodsLoop_total w (if "all" ∈ w then CRUD_METHODS else []) hw
    by_cases hd : ("get_or_raise" ∈ r ∨ "delete_by_id" ∈ r) ∧ "get" ∉ r
    · refine ⟨"get" :: r, ?_⟩
      unfold validate_methods
      rw [if_neg hwe, if_neg hn, hr]
      simp [Except.map, hd]
    · refine ⟨r, ?_⟩
      unfold validate_methods
      rw [if_neg hwe, if_neg hn, hr]
      simp [Except.map, hd]

/-- Witness for the amended C6 at the token bogus. -/
theorem invalid_method_token_amended_witness :
    (∃ t, validate_methods_field ["bogus"] = .error (.literal t)
      ∧ t ∈ ["bogus"] ∧ t ∉ CrudMethodLiterals)
    ∧ ∀ w : List String, (∀ m ∈ w, m ∈ CrudMethodLiterals) →
        ∃ r, validate_methods w = .ok r :=
  invalid_method_token_amended ["bogus"] "bogus" (by decide) (by decide)

-- ## Helper lemmas about model construction and the loader

/-- Helper: a successfully constructed model keeps the submitted name. -/
theorem mkModelConfig_name (n ip idf idt : String) (ms ps : List String)
    (m : ModelConfig) (h : mkModelConfig n ip idf idt ms ps = .ok m) : m.name = n := by
  unfold mkModelConfig at h
  rcases h1 : validate_name n with e | n'
  · simp [h1] at h
  rcases h2 : validate_import_path ip with e | ip'
  · simp [h1, h2] at h
  rcases h3 : validate_methods_field ms with e | ms'
  · simp [h1, h2, h3] at h
  simp only [h1, h2, h3, Except.ok.injEq] at h
  have hn : n' = n := by
    unfold validate_name at h1
    rcases hd : n.data with _ | ⟨c, cs⟩
    · simp [hd] at h1
    · simp only [hd] at h1
      by_cases hc : c.isAlpha
      · simp [hc] at h1
        exact h1.symm
      · simp [hc] at h1
  rw [← h]
  exact hn

/-- Helper: validating a models list preserves names, in order. -/
theorem validateModelsList_names : ∀ (ms : List RawModel) (vs : List ModelConfig),
    validateModelsList ms = .ok vs →
    vs.map ModelConfig.name = ms.map RawModel.name := by
  intro ms
  induction ms with
  | nil =>
    intro vs h
    simp only [validateModelsList, Except.ok.injEq] at h
    simp [← h]
  | cons r rest ih =>
    intro vs h
    unfold validateModelsList at h
    rcases h1 : validateRawModel r with e | m
    · simp [h1] at h
    rcases h2 : validateModelsList rest with e | ms'
    · simp [h1, h2] at h
    simp only [h1, h2, Except.ok.injEq] at h
    have hname : m.name = r.name :=
      mkModelConfig_name r.name r.import_path r.id_field r.id_type r.methods
        r.personalize_methods m h1
    rw [← h]
    simp [hname, ih ms' h2]

-- ## Theorems for C7: the models field of load_config

/-- C7 amended: the models-field handling of load_config is exhaustive
over string and list forms: the discovery sentinel (case-insensitive,
stripped) enables discovery with a cleared list; the none sentinel fails
with the no-models error; any other string fails with the invalid-value
error; an empty list fails with the empty-list error; a non-empty list is
used as-is, one validated model per declaration with names preserved in
order and discovery off; but a value that is neither a string nor a list
falls through to schema validation and fails with the wrapped
invalid-configuration error, not the invalid-value error. -/
theorem load_models_cases :
    (∀ g s, pyLower (pyStrip s) = "all" →
      load_models g (.strVal s) = .ok ([], true))
    ∧ (∀ g s, pyLower (pyStrip s) = "none" →
      load_models g (.strVal s) = .error .modelsNone)
    ∧ (∀ g s, pyLower (pyStrip s) ≠ "all" → pyLower (pyStrip s) ≠ "none" →
      load_models g (.strVal s) = .error .modelsInvalidValue)
    ∧ (∀ g, load_models g (.listVal []) = .error .modelsEmpty)
    ∧ (∀ g ms vs d, ms ≠ [] → load_models g (.listVal ms) = .ok (vs, d) →
      d = false ∧ vs.map ModelConfig.name = ms.map RawModel.name)
    ∧ (∀ g r, ∃ detail,
      load_models g (.scalarVal r) = .error (.invalidConfiguration detail)) := by
  refine ⟨?_, ?_, ?_, ?_, ?_, ?_⟩
  · intro g s h
    simp [load_models, h, pydanticModels, validateModelsList, validate_models]
  · intro g s h
    simp [load_models, h]
  · intro g s h1 h2
    simp [load_models, h1, h2]
  · intro g
    simp [load_models]
  · intro g ms vs d hne h
    simp only [load_models] at h
    rw [if_neg (by simpa using hne)] at h
    unfold pydanticModels at h
    rcases h1 : validateModelsList ms with e | ws
    · simp [h1] at h
    rcases h2 : validate_models ws with e | ws'
    · simp [h1, h2] at h
    have hws : ws' = ws := by
      unfold validate_models at h2
      by_cases hnd : (ws.map ModelConfig.name).Nodup
      · rw [if_pos hnd] at h2; simpa using h2.symm
      · rw [if_neg hnd] at h2; exact absurd h2 (by simp)
    simp only [h1, h2, Except.ok.injEq, Prod.mk.injEq] at h
    refine ⟨h.2.symm, ?_⟩
    rw [← h.1, hws]
    exact validateModelsList_names ms ws h1
  · intro g r
    exact ⟨"models value is not a list", rfl⟩

/-- Witness for C7 at concrete inputs: the stripped upper-case sentinel,
the empty list, and a one-model list. -/
theorem load_models_cases_witness :
    load_models "standalone" (.strVal " ALL ") = .ok ([], true)
    ∧ load_models "standalone" (.listVal []) = .error .modelsEmpty
    ∧ (false = false
      ∧ [userModelConfig].map ModelConfig.name = [userRawModel].map RawModel.name) :=
  ⟨load_models_cases.1 "standalone" " ALL " (by decide),
   load_models_cases.2.2.2.1 "standalone",
   load_models_cases.2.2.2.2.1 "standalone" [userRawModel] [userModelConfig] false
     (by simp) (by rfl)⟩

/-- C7 counterexample: a non-string scalar for models (for instance the
number 5) does not fail with the invalid-value error: it reaches schema
validation and is rejected as the wrapped invalid-configuration error. -/
theorem load_models_scalar_counterexample :
    load_models "standalone" (.scalarVal "5")
      = .error (.invalidConfiguration "models value is not a list")
    ∧ load_models "standalone" (.scalarVal "5")
      ≠ .error .modelsInvalidValue := by
  constructor
  · rfl
  · intro h
    rw [show load_models "standalone" (.scalarVal "5")
      = .error (.invalidConfiguration "models value is not a list") from rfl] at h
    simp at h

-- ## Theorems for C8: import locator validation

/-- C8 counterexample: an ordinary explicit model declaration (named
User, no wildcard) whose import locator has no colon separator passes
pydantic validation unchanged, so validation does not reject it, contrary
to the claim that separator-free locators are tolerated only for
wildcard entries. -/
theorem import_path_no_colon_counterexample :
    validate_import_path "app.models" = .ok "app.models"
    ∧ mkModelConfig "User" "app.models" "id" "int" ["get"] []
      = .ok userNoColonModel := by
  constructor <;> rfl

/-- C8 amended: a locator containing the colon separator is rejected with
the import-path error exactly when a segment is empty; a locator with no
separator is accepted by validation for every entry, wildcard or not; an
ordinary explicit declaration with a separator-free locator is only
rejected later, by the resolver's import check (as not-importable,
whatever the import oracle says) when discovery is off and
missing-model tolerance is off. -/
theorem import_path_validation_amended :
    (∀ v md cls, splitOnceColon v = some (md, cls) →
      ((md = "" ∨ cls = "") → validate_import_path v = .error ERR_IMPORT_PATH_CLASS)
      ∧ (md ≠ "" → cls ≠ "" → validate_import_path v = .ok v))
    ∧ (∀ v, splitOnceColon v = none → validate_import_path v = .ok v)
    ∧ (∀ (cfg : GenrepoConfig) (m : ModelConfig) (imp : String → String → Bool)
        (listing : List String),
      cfg.models = [m] → cfg.discover_all = false → cfg.allow_missing_models = false →
      splitOnceColon m.import_path = none → isWildcardName m = false →
      resolve cfg listing imp = .error (.notImportable m.import_path)) := by
  refine ⟨?_, ?_, ?_⟩
  · intro v md cls h
    constructor
    · intro he
      unfold validate_import_path
      rw [h]
      simp only [if_pos he]
    · intro h1 h2
      unfold validate_import_path
      rw [h]
      simp [h1, h2]
  · intro v h
    unfold validate_import_path
    rw [h]
  · intro cfg m imp listing hm hd ha hsplit hw
    simp [resolve, hm, hd, ha, hw, checkImports, hsplit]

/-- Witness for the amended C8: an empty module segment is rejected, a
separator-free locator is accepted, and the resolver reports the
separator-free locator of an ordinary checked declaration as
not-importable. -/
theorem import_path_validation_amended_witness :
    validate_import_path ":User" = .error ERR_IMPORT_PATH_CLASS
    ∧ validate_import_path "app.models" = .ok "app.models"
    ∧ resolve cfgNoColonChecked [] impAll = .error (.notImportable "app.models") :=
  ⟨(import_path_validation_amended.1 ":User" "" "User" (by rfl)).1 (Or.inl rfl),
   import_path_validation_amended.2.1 "app.models" (by rfl),
   import_path_validation_amended.2.2 cfgNoColonChecked userNoColonModel impAll []
     (by rfl) (by rfl) (by rfl) (by rfl) (by rfl)⟩

-- ## Theorems for C9: resolver determinism and ordering

/-- Helper: the names of the models synthesized by the discovery loop are
the pascal-cased stems of the listed files, in listing order, excluding
reserved names and names claimed by explicit declarations. -/
theorem discoverLoop_names (pkg dId dType : String) (dM dP : List String)
    (names : List String) :
    ∀ (files : List String) (ds : List ModelConfig),
    discoverLoop pkg dId dType dM dP names files = .ok ds →
    ds.map ModelConfig.name
      = (files.filter (fun f => !(startsWithDunder f)
          && decide (to_pascal (stemOf f) ∉ names))).map
        (fun f => to_pascal (stemOf f)) := by
  intro files
  induction files with
  | nil =>
    intro ds h
    simp only [discoverLoop, Except.ok.injEq] at h
    simp [← h]
  | cons f rest ih =>
    intro ds h
    simp only [discoverLoop] at h
    by_cases h1 : startsWithDunder f = true
    · rw [if_pos h1] at h
      rw [ih ds h]
      simp [List.filter_cons, h1]
    · rw [if_neg h1] at h
      by_cases h2 : to_pascal (stemOf f) ∈ names
      · rw [if_pos h2] at h
        rw [ih ds h]
        simp [List.filter_cons, h1, h2]
      · rw [if_neg h2] at h
        rcases h3 : mkModelConfig (to_pascal (stemOf f))
            (pkg ++ "." ++ stemOf f ++ ":" ++ to_pascal (stemOf f)) dId dType dM dP
          with e | m
        · simp [h3] at h
        rcases h4 : discoverLoop pkg dId dType dM dP names rest with e | ms
        · simp [h3, h4] at h
        simp only [h3, h4, Except.ok.injEq] at h
        have hname := mkModelConfig_name _ _ _ _ _ _ _ h3
        rw [← h]
        simp [List.filter_cons, h1, h2, hname, ih ms h4]

/-- C9: with discovery enabled, the resolved list is the explicit
declarations in original order followed by the discovered declarations in
lexicographic file-name order, where reserved double-underscore names are
excluded and a discovered name whose pascal-cased class an explicit
declaration already claims is dropped. -/
theorem resolver_order (cfg : GenrepoConfig) (listing : List String)
    (imp : String → String → Bool) (res : List ModelConfig)
    (hok : resolve cfg listing imp = .ok res)
    (hdisc : cfg.discover_all = true ∨ (cfg.models.filter isWildcardName) ≠ []) :
    res.take (cfg.models.filter (fun m => !isWildcardName m)).length
      = cfg.models.filter (fun m => !isWildcardName m)
    ∧ res.map ModelConfig.name
      = (cfg.models.filter (fun m => !isWildcardName m)).map ModelConfig.name
        ++ ((sortLex listing).filter (fun f => !(startsWithDunder f)
            && decide (to_pascal (stemOf f)
              ∉ (cfg.models.filter (fun m => !isWildcardName m)).map ModelConfig.name))).map
          (fun f => to_pascal (stemOf f)) := by
  have hcond : (cfg.discover_all
      || ((cfg.models.filter isWildcardName).getLast?).isSome) = true := by
    rcases hdisc with h | h
    · simp [h]
    · have : ((cfg.models.filter isWildcardName).getLast?).isSome = true := by
        rw [List.getLast?_isSome]; exact h
      rw [this, Bool.or_true]
  simp only [resolve] at hok
  rw [if_pos hcond] at hok
  split at hok
  · exact absurd hok (by simp)
  · rename_i ds hD
    simp only [Except.ok.injEq] at hok
    constructor
    · rw [← hok]
      exact List.take_left _ _
    · rw [← hok, List.map_append, discoverLoop_names _ _ _ _ _ _ _ ds hD]

/-- Witness for C9: files user.py and bar.py with an explicit User
declaration and a wildcard entry resolve to the explicit User followed by
the discovered Bar (user.py is suppressed by the explicit declaration,
bar.py sorts first lexicographically). -/
theorem resolver_order_witness :
    ([userModelConfig, barModelConfig] : List ModelConfig).take
        (cfgDiscovery.models.filter (fun m => !isWildcardName m)).length
      = cfgDiscovery.models.filter (fun m => !isWildcardName m)
    ∧ ([userModelConfig, barModelConfig] : List ModelConfig).map ModelConfig.name
      = (cfgDiscovery.models.filter (fun m => !isWildcardName m)).map ModelConfig.name
        ++ ((sortLex ["user.py", "bar.py"]).filter (fun f => !(startsWithDunder f)
            && decide (to_pascal (stemOf f)
              ∉ (cfgDiscovery.models.filter (fun m => !isWildcardName m)).map
                ModelConfig.name))).map (fun f => to_pascal (stemOf f)) :=
  resolver_order cfgDiscovery ["user.py", "bar.py"] impAll
    [userModelConfig, barModelConfig] (by rfl) (Or.inr (by decide))

-- ## Helper lemmas about the file-system model and the write engine

/-- Helper: reading back a just-set path. -/
theorem FS.get_set_self (fs : FS) (p : String) (st : FileState) :
    (fs.set p st).get p = st := by
  simp [FS.set, FS.get]

/-- Helper: setting one path leaves every other path unchanged. -/
theorem FS.get_set_ne (fs : FS) (p q : String) (st : FileState) (h : q ≠ p) :
    (fs.set p st).get q = fs.get q := by
  simp [FS.set, FS.get, Ne.symm h]

/-- Helper: the classified plan entry carries the classified path. -/
theorem classify_path (fs : FS) (p c : String) (ow : Bool) :
    (classify_file fs p c ow).path = p := by
  unfold classify_file
  split
  · rfl
  · split <;> rfl
  · split
    · rfl
    · split <;> rfl

/-- Helper: ensuring the package marker does not touch other paths. -/
theorem ensure_get_ne (fs : FS) (dir p : String)
    (h : p ≠ pathJoin dir "__init__.py") :
    (ensure_package fs dir).get p = fs.get p := by
  unfold ensure_package
  split
  · exact FS.get_set_ne fs _ p _ h
  · rfl

/-- Helper: ensuring the package marker does not touch any existing
path. -/
theorem ensure_get_of_ne_absent (fs : FS) (dir p : String)
    (h : FS.get fs p ≠ .absent) :
    (ensure_package fs dir).get p = fs.get p := by
  by_cases he : p = pathJoin dir "__init__.py"
  · unfold ensure_package
    rw [← he]
    rcases hg : FS.get fs p with _ | cont | _
    · exact absurd hg h
    · simp [hg]
    · simp [hg]
  · exact ensure_get_ne fs dir p he

/-- Helper: a write to one path leaves every other path unchanged. -/
theorem write_get_ne (fs : FS) (p c : String) (ow : Bool) (q : String) (h : q ≠ p) :
    FS.get (write fs p c ow).2 q = FS.get fs q := by
  unfold write
  split
  · rfl
  · exact FS.get_set_ne fs p q _ h

/-- Helper (parity core): over pairwise-distinct targets whose starting
states agree with a reference file system, the executor's written list is
exactly the planner's entries flagged as written-or-up-to-date, in
order. -/
theorem writeAll_parity (fs : FS) :
    ∀ (items : List (String × String × Bool)) (fs0 : FS),
    (∀ it ∈ items, FS.get fs0 it.1 = FS.get fs it.1) →
    (items.map (fun it => it.1)).Nodup →
    (writeAll fs0 items).1
      = ((items.map (fun it => classify_file fs it.1 it.2.1 it.2.2)).filter
          shouldWriteFlag).map FilePlan.path := by
  intro items
  induction items with
  | nil => intro fs0 _ _; rfl
  | cons it rest ih =>
    intro fs0 hag hnd
    obtain ⟨p, c, ow⟩ := it
    have hp : FS.get fs0 p = FS.get fs p := hag (p, c, ow) (by simp)
    have hnd' : (rest.map (fun it => it.1)).Nodup :=
      (List.nodup_cons.mp (by simpa using hnd)).2
    have hpnot : p ∉ rest.map (fun it => it.1) :=
      (List.nodup_cons.mp (by simpa using hnd)).1
    have hag0 : ∀ it ∈ rest, FS.get fs0 it.1 = FS.get fs it.1 :=
      fun it hit => hag it (by simp [hit])
    have hagset : ∀ st : FileState, ∀ it ∈ rest,
        FS.get (fs0.set p st) it.1 = FS.get fs it.1 := by
      intro st it hit
      have hne : it.1 ≠ p := fun he => hpnot (he ▸ List.mem_map_of_mem _ hit)
      rw [FS.get_set_ne fs0 p it.1 st hne]
      exact hag0 it hit
    rcases hfs : FS.get fs p with _ | cur | _
    · have hw : write fs0 p c ow = (true, fs0.set p (.readable c)) := by
        unfold write
        rw [if_neg (by simp [hp, hfs])]
      simp only [writeAll, hw]
      rw [ih (fs0.set p (.readable c)) (hagset _) hnd']
      simp [classify_file, hfs, shouldWriteFlag, List.filter_cons]
    · by_cases how : ow = true
      · subst how
        have hw : write fs0 p c true = (true, fs0.set p (.readable c)) := by
          unfold write
          rw [if_neg (by simp)]
        simp only [writeAll, hw]
        rw [ih (fs0.set p (.readable c)) (hagset _) hnd']
        by_cases hcc : cur = c
        · simp [classify_file, hfs, hcc, shouldWriteFlag, List.filter_cons]
        · simp [classify_file, hfs, hcc, shouldWriteFlag, List.filter_cons]
      · have how' : ow = false := by simpa using how
        subst how'
        have hw : write fs0 p c false = (false, fs0) := by
          unfold write
          rw [if_pos ⟨by simp [hp, hfs], by simp⟩]
        simp only [writeAll, hw]
        rw [ih fs0 hag0 hnd']
        simp [classify_file, hfs, shouldWriteFlag, List.filter_cons]
    · by_cases how : ow = true
      · subst how
        have hw : write fs0 p c true = (true, fs0.set p (.readable c)) := by
          unfold write
          rw [if_neg (by simp)]
        simp only [writeAll, hw]
        rw [ih (fs0.set p (.readable c)) (hagset _) hnd']
        simp [classify_file, hfs, shouldWriteFlag, List.filter_cons]
      · have how' : ow = false := by simpa using how
        subst how'
        have hw : write fs0 p c false = (false, fs0) := by
          unfold write
          rw [if_pos ⟨by simp [hp, hfs], by simp⟩]
        simp only [writeAll, hw]
        rw [ih fs0 hag0 hnd']
        simp [classify_file, hfs, shouldWriteFlag, List.filter_cons]

/-- Helper: a path whose every matching target has overwrite off, and
which already exists, is never changed nor reported written. -/
theorem writeAll_preserves (sp : String) :
    ∀ (items : List (String × String × Bool)) (fs0 : FS),
    FS.get fs0 sp ≠ .absent →
    (∀ it ∈ items, it.1 = sp → it.2.2 = false) →
    FS.get (writeAll fs0 items).2 sp = FS.get fs0 sp
      ∧ sp ∉ (writeAll fs0 items).1 := by
  intro items
  induction items with
  | nil => intro fs0 _ _; exact ⟨rfl, by simp [writeAll]⟩
  | cons it rest ih =>
    intro fs0 h0 hov
    obtain ⟨p, c, ow⟩ := it
    have hovr : ∀ it ∈ rest, it.1 = sp → it.2.2 = false :=
      fun it hit => hov it (by simp [hit])
    by_cases hps : p = sp
    · subst hps
      have how : ow = false := hov (p, c, ow) (by simp) rfl
      subst how
      have hw : write fs0 p c false = (false, fs0) := by
        unfold write
        rw [if_pos ⟨h0, by simp⟩]
      simp only [writeAll, hw]
      obtain ⟨ha, hb⟩ := ih fs0 h0 hovr
      exact ⟨ha, by simpa using hb⟩
    · have hkeep : FS.get (write fs0 p c ow).2 sp = FS.get fs0 sp := by
        unfold write
        split
        · rfl
        · exact FS.get_set_ne fs0 p sp _ (Ne.symm hps)
      obtain ⟨ha, hb⟩ := ih (write fs0 p c ow).2 (by rw [hkeep]; exact h0) hovr
      constructor
      · simp only [writeAll]
        rw [ha, hkeep]
      · simp only [writeAll, List.mem_append]
        rintro (h1 | h1)
        · rcases hft : (write fs0 p c ow).1 with _ | _
          · rw [hft] at h1; simp at h1
          · rw [hft] at h1
            have : sp = p := by simpa using h1
            exact hps this.symm
        · exact hb h1

/-- Helper: the per-model stub or repository file is never the package
marker file. -/
theorem repoPath_ne_initPath (dir : String) (m : ModelConfig) :
    pathJoin dir (repoFileName m) ≠ pathJoin dir "__init__.py" := by
  intro h
  have hl := congrArg String.length h
  simp only [pathJoin, repoFileName, String.length_append] at hl
  rw [show ("_repository.py" : String).length = 14 from rfl,
    show ("__init__.py" : String).length = 11 from rfl] at hl
  omega

/-- Helper: assembling the parity conclusion from the job-list form of
the planner and executor outputs. -/
theorem parity_conclusion (fs : FS) (out : String)
    (items : List (String × String × Bool))
    (plans : List FilePlan) (written : List String)
    (hplans : plans = items.map (fun it => classify_file fs it.1 it.2.1 it.2.2))
    (hwritten : written = (writeAll (ensure_package fs out) items).1)
    (hnd : (plans.map FilePlan.path).Nodup)
    (hinit : pathJoin out "__init__.py" ∉ plans.map FilePlan.path) :
    written = (plans.filter shouldWriteFlag).map FilePlan.path
    ∧ ∀ f ∈ plans, f.would_write = true → f.path ∈ written := by
  have hpaths : plans.map FilePlan.path = items.map (fun it => it.1) := by
    subst hplans
    simp [List.map_map, Function.comp_def, classify_path]
  have hag : ∀ it ∈ items, FS.get (ensure_package fs out) it.1 = FS.get fs it.1 := by
    intro it hit
    apply ensure_get_ne
    intro he
    exact hinit (by rw [hpaths, ← he]; exact List.mem_map_of_mem _ hit)
  have hmain := writeAll_parity fs items (ensure_package fs out) hag (hpaths ▸ hnd)
  constructor
  · rw [hwritten, hmain, hplans]
  · intro f hf hwf
    have hflag : shouldWriteFlag f = true := by simp [shouldWriteFlag, hwf]
    rw [hwritten, hmain, ← hplans]
    exact List.mem_map_of_mem _ (List.mem_filter.mpr ⟨hf, hflag⟩)

-- ## Theorems for C1: plan/execute parity

/-- C1 amended: for a configuration whose planned target paths are
pairwise distinct and do not include the output directory package
marker, and whose model resolution inside the executor — performed after
the package marker is ensured and, in combined mode, after the base-file
write, so its discovery glob sees those writes — returns the same result
as the planner's resolution against the starting state, the executor's
written list equals, in order, the planned paths whose entry either has
would_write true or carries reason up-to-date (an existing file
identical to the proposed content with overwrite allowed is planned as a
skip but rewritten by the executor, whose write never compares content);
in particular every planned write is performed. -/
theorem plan_execute_parity (env : Jinja) (cfg : GenrepoConfig) (root : String)
    (force : Bool) (fs : FS) (imp : String → String → Bool)
    (plans : List FilePlan) (written : List String) (fs' : FS)
    (hp : plan_from_config env cfg root force fs imp = .ok plans)
    (hg : generate_from_config env cfg root force fs imp = .ok (written, fs'))
    (hnd : (plans.map FilePlan.path).Nodup)
    (hinit : pathJoin (outDirOf root cfg) "__init__.py" ∉ plans.map FilePlan.path)
    (hress : cfg.generation.mode = .standalone →
      resolve cfg (FS.glob (ensure_package fs (outDirOf root cfg))
          (modelsDirOf root cfg)) imp
        = resolve cfg (FS.glob fs (modelsDirOf root cfg)) imp)
    (hresc : cfg.generation.mode = .combined →
      resolve cfg (FS.glob (write (ensure_package fs (outDirOf root cfg))
          (basePathOf root cfg) (baseContent env cfg)
          cfg.generation.overwrite_base).2 (modelsDirOf root cfg)) imp
        = resolve cfg (FS.glob fs (modelsDirOf root cfg)) imp) :
    written = (plans.filter shouldWriteFlag).map FilePlan.path
    ∧ ∀ f ∈ plans, f.would_write = true → f.path ∈ written := by
  rcases hmode : cfg.generation.mode with _ | _ | _
  · simp only [plan_from_config, generate_from_config, hmode] at hp hg
    rw [hress hmode] at hg
    rcases hres : resolve cfg (FS.glob fs (modelsDirOf root cfg)) imp with e | models
    · simp [hres] at hp
    simp only [hres, Except.ok.injEq] at hp hg
    apply parity_conclusion fs (outDirOf root cfg)
      (models.map fun m =>
        (pathJoin (outDirOf root cfg) (repoFileName m), standaloneContent env cfg m,
          force))
      plans written ?_ ?_ hnd hinit
    · rw [← hp]
      simp [List.map_map]
    · exact (congrArg Prod.fst hg).symm
  · simp only [plan_from_config, generate_from_config, hmode] at hp hg
    simp only [Except.ok.injEq] at hp hg
    apply parity_conclusion fs (outDirOf root cfg)
      [(basePathOf root cfg, baseContent env cfg, cfg.generation.overwrite_base)]
      plans written ?_ ?_ hnd hinit
    · rw [← hp]
      rfl
    · exact (congrArg Prod.fst hg).symm
  · simp only [plan_from_config, generate_from_config, hmode] at hp hg
    rw [hresc hmode] at hg
    rcases hres : resolve cfg (FS.glob fs (modelsDirOf root cfg)) imp with e | models
    · simp [hres] at hp
    simp only [hres, Except.ok.injEq] at hp hg
    apply parity_conclusion fs (outDirOf root cfg)
      ((basePathOf root cfg, baseContent env cfg, cfg.generation.overwrite_base)
        :: models.map fun m =>
          (pathJoin (outDirOf root cfg) (repoFileName m), stubContent env cfg m, false))
      plans written ?_ ?_ hnd hinit
    · rw [← hp]
      simp [List.map_map]
    · exact (congrArg Prod.fst hg).symm

/-- Witness for the amended C1: a standalone run over an empty file
system plans one create and writes exactly that path; the pre-resolution
writes touch only the output directory, away from the discovery
directory, so both resolution hypotheses hold by computation. -/
theorem plan_execute_parity_witness :
    (["/r/out/user_repository.py"] : List String)
      = (([⟨"/r/out/user_repository.py", false, true, false, some "create"⟩]
          : List FilePlan).filter shouldWriteFlag).map FilePlan.path
    ∧ ∀ f ∈ ([⟨"/r/out/user_repository.py", false, true, false, some "create"⟩]
        : List FilePlan),
      f.would_write = true → f.path ∈ (["/r/out/user_repository.py"] : List String) :=
  plan_execute_parity jinjaGEN cfgStandaloneOne "/r" false [] impAll
    [⟨"/r/out/user_repository.py", false, true, false, some "create"⟩]
    ["/r/out/user_repository.py"]
    [("/r/out/user_repository.py", .readable "GEN"), ("/r/out/__init__.py", .readable "")]
    (by rfl) (by rfl) (by decide) (by decide) (fun _ => rfl) (fun _ => rfl)

/-- C1 counterexample: base mode with overwrite_base on and a base file
already holding exactly the rendered content: the plan reports the single
path as a skip (reason up-to-date, would_write false), yet the executor
writes it and returns it in the written list, refuting the claimed
would_write-iff-written correspondence. -/
theorem plan_execute_parity_counterexample :
    plan_from_config jinjaGEN cfgBaseUpToDate "/r" false fsBaseUpToDate impAll
      = .ok [⟨"/r/out/base_repository.py", true, false, true, some "up-to-date"⟩]
    ∧ (generate_from_config jinjaGEN cfgBaseUpToDate "/r" false fsBaseUpToDate
        impAll).map (fun r => r.1)
      = .ok ["/r/out/base_repository.py"] := by
  constructor <;> rfl

-- ## Theorems for C3: create-once in combined mode

/-- C3 amended: in combined mode, an existing per-model user-stub file
whose path differs from the base file path is never rewritten nor
reported written, regardless of force (stub writes never allow
overwrite); and an existing base file is rewritten exactly when
overwrite_base is set: with the switch on it ends holding the freshly
rendered base content (manual edits discarded), with the switch off it is
left untouched.  The proviso on the base path is forced by the
counterexample below, where the configured base file name collides with a
stub file name. -/
theorem create_once_amended (env : Jinja) (cfg : GenrepoConfig) (root : String)
    (force : Bool) (fs : FS) (imp : String → String → Bool)
    (written : List String) (fs' : FS) (models : List ModelConfig)
    (hmode : cfg.generation.mode = .combined)
    (hres : resolve cfg (FS.glob (write (ensure_package fs (outDirOf root cfg))
        (basePathOf root cfg) (baseContent env cfg)
        cfg.generation.overwrite_base).2 (modelsDirOf root cfg)) imp = .ok models)
    (hgen : generate_from_config env cfg root force fs imp
      = .ok (written, fs')) :
    (∀ m ∈ models,
      FS.get fs (pathJoin (outDirOf root cfg) (repoFileName m)) ≠ .absent →
      pathJoin (outDirOf root cfg) (repoFileName m) ≠ basePathOf root cfg →
      FS.get fs' (pathJoin (outDirOf root cfg) (repoFileName m))
        = FS.get fs (pathJoin (outDirOf root cfg) (repoFileName m))
      ∧ pathJoin (outDirOf root cfg) (repoFileName m) ∉ written)
    ∧ (FS.get fs (basePathOf root cfg) ≠ .absent →
      (basePathOf root cfg ∈ written ↔ cfg.generation.overwrite_base = true)
      ∧ (cfg.generation.overwrite_base = true →
        FS.get fs' (basePathOf root cfg) = .readable (baseContent env cfg))
      ∧ (cfg.generation.overwrite_base = false →
        FS.get fs' (basePathOf root cfg) = FS.get fs (basePathOf root cfg))) := by
  simp only [generate_from_config, hmode] at hgen
  simp only [hres, Except.ok.injEq] at hgen
  have hw1 : written = (writeAll (ensure_package fs (outDirOf root cfg))
      ((basePathOf root cfg, baseContent env cfg, cfg.generation.overwrite_base)
        :: models.map fun m =>
          (pathJoin (outDirOf root cfg) (repoFileName m), stubContent env cfg m,
            false))).1 :=
    (congrArg Prod.fst hgen).symm
  have hw2 : fs' = (writeAll (ensure_package fs (outDirOf root cfg))
      ((basePathOf root cfg, baseContent env cfg, cfg.generation.overwrite_base)
        :: models.map fun m =>
          (pathJoin (outDirOf root cfg) (repoFileName m), stubContent env cfg m,
            false))).2 :=
    (congrArg Prod.snd hgen).symm
  have hov : ∀ (sp : String), ∀ it ∈ (models.map fun m =>
      (pathJoin (outDirOf root cfg) (repoFileName m), stubContent env cfg m, false)),
      it.1 = sp → it.2.2 = false := by
    intro sp it hit _
    rcases List.mem_map.mp hit with ⟨m', _, rfl⟩
    rfl
  simp only [writeAll] at hw1 hw2
  constructor
  · intro m hm hex hne
    have h1 : FS.get (ensure_package fs (outDirOf root cfg))
        (pathJoin (outDirOf root cfg) (repoFileName m))
        = FS.get fs (pathJoin (outDirOf root cfg) (repoFileName m)) :=
      ensure_get_ne fs (outDirOf root cfg) _ (repoPath_ne_initPath _ m)
    have h2 : FS.get (write (ensure_package fs (outDirOf root cfg))
        (basePathOf root cfg) (baseContent env cfg) cfg.generation.overwrite_base).2
        (pathJoin (outDirOf root cfg) (repoFileName m))
        = FS.get (ensure_package fs (outDirOf root cfg))
          (pathJoin (outDirOf root cfg) (repoFileName m)) :=
      write_get_ne _ _ _ _ _ hne
    obtain ⟨ha, hb⟩ := writeAll_preserves (pathJoin (outDirOf root cfg) (repoFileName m))
      (models.map fun m =>
        (pathJoin (outDirOf root cfg) (repoFileName m), stubContent env cfg m, false))
      (write (ensure_package fs (outDirOf root cfg)) (basePathOf root cfg)
        (baseContent env cfg) cfg.generation.overwrite_base).2
      (by rw [h2, h1]; exact hex) (hov _)
    constructor
    · rw [hw2, ha, h2, h1]
    · rw [hw1]
      simp only [List.mem_append]
      rintro (hmem | hmem)
      · rcases hft : (write (ensure_package fs (outDirOf root cfg)) (basePathOf root cfg)
            (baseContent env cfg) cfg.generation.overwrite_base).1 with _ | _
        · rw [hft] at hmem; simp at hmem
        · rw [hft] at hmem
          exact hne (by simpa using hmem)
      · exact hb hmem
  · intro hbex
    have hb0 : FS.get (ensure_package fs (outDirOf root cfg)) (basePathOf root cfg)
        = FS.get fs (basePathOf root cfg) :=
      ensure_get_of_ne_absent fs (outDirOf root cfg) _ hbex
    rcases hob : cfg.generation.overwrite_base with _ | _
    · rw [hob] at hw1 hw2
      have hwrt : write (ensure_package fs (outDirOf root cfg)) (basePathOf root cfg)
          (baseContent env cfg) false = (false, ensure_package fs (outDirOf root cfg)) := by
        unfold write
        rw [if_pos ⟨by rw [hb0]; exact hbex, by simp⟩]
      rw [hwrt] at hw1 hw2
      simp only at hw1 hw2
      obtain ⟨ha, hb⟩ := writeAll_preserves (basePathOf root cfg)
        (models.map fun m =>
          (pathJoin (outDirOf root cfg) (repoFileName m), stubContent env cfg m, false))
        (ensure_package fs (outDirOf root cfg))
        (by rw [hb0]; exact hbex) (hov _)
      refine ⟨?_, ?_, ?_⟩
      · constructor
        · intro hmem
          rw [hw1] at hmem
          exact absurd (by simpa using hmem) hb
        · intro h
          simp at h
      · intro h
        simp at h
      · intro _
        rw [hw2, ha, hb0]
    · rw [hob] at hw1 hw2
      have hwrt : write (ensure_package fs (outDirOf root cfg)) (basePathOf root cfg)
          (baseContent env cfg) true
          = (true, (ensure_package fs (outDirOf root cfg)).set (basePathOf root cfg)
              (.readable (baseContent env cfg))) := by
        unfold write
        rw [if_neg (by simp)]
      rw [hwrt] at hw1 hw2
      simp only at hw1 hw2
      obtain ⟨ha, hb⟩ := writeAll_preserves (basePathOf root cfg)
        (models.map fun m =>
          (pathJoin (outDirOf root cfg) (repoFileName m), stubContent env cfg m, false))
        ((ensure_package fs (outDirOf root cfg)).set (basePathOf root cfg)
          (.readable (baseContent env cfg)))
        (by rw [FS.get_set_self]; simp) (hov _)
      refine ⟨?_, ?_, ?_⟩
      · constructor
        · intro _; rfl
        · intro _
          rw [hw1]
          simp
      · intro _
        rw [hw2, ha, FS.get_set_self]
      · intro h
        simp at h

/-- Witness for the amended C3: regenerating over an existing stub and an
existing base file with overwrite_base on keeps the stub's manual content
and out of the written list, and rewrites the base file with fresh
content. -/
theorem create_once_amended_witness :
    (∀ m ∈ ([userModelConfig] : List ModelConfig),
      FS.get fsCombinedOk (pathJoin (outDirOf "/r" cfgCombinedOk) (repoFileName m))
        ≠ .absent →
      pathJoin (outDirOf "/r" cfgCombinedOk) (repoFileName m)
        ≠ basePathOf "/r" cfgCombinedOk →
      FS.get fsC3After (pathJoin (outDirOf "/r" cfgCombinedOk) (repoFileName m))
        = FS.get fsCombinedOk (pathJoin (outDirOf "/r" cfgCombinedOk) (repoFileName m))
      ∧ pathJoin (outDirOf "/r" cfgCombinedOk) (repoFileName m)
        ∉ (["/r/out/base_repository.py"] : List String))
    ∧ (FS.get fsCombinedOk (basePathOf "/r" cfgCombinedOk) ≠ .absent →
      (basePathOf "/r" cfgCombinedOk ∈ (["/r/out/base_repository.py"] : List String)
        ↔ cfgCombinedOk.generation.overwrite_base = true)
      ∧ (cfgCombinedOk.generation.overwrite_base = true →
        FS.get fsC3After (basePathOf "/r" cfgCombinedOk)
          = .readable (baseContent jinjaGEN cfgCombinedOk))
      ∧ (cfgCombinedOk.generation.overwrite_base = false →
        FS.get fsC3After (basePathOf "/r" cfgCombinedOk)
          = FS.get fsCombinedOk (basePathOf "/r" cfgCombinedOk))) :=
  create_once_amended jinjaGEN cfgCombinedOk "/r" false fsCombinedOk impAll
    ["/r/out/base_repository.py"] fsC3After [userModelConfig]
    (by rfl) (by rfl) (by rfl)

/-- C3 counterexample: combined mode with base_filename equal to the
model's stub file name and overwrite_base on: the pre-existing manually
edited stub file is overwritten (by the base write) and its path is
reported written, so the unconditional create-once claim fails. -/
theorem create_once_counterexample :
    (generate_from_config jinjaGEN cfgCombinedClash "/r" false fsClash impAll).map
      (fun r => (r.1, FS.get r.2 "/r/out/user_repository.py"))
      = .ok (["/r/out/user_repository.py"], .readable "GEN")
    ∧ FS.get fsClash "/r/out/user_repository.py" = .readable "MANUAL" := by
  constructor <;> rfl
